import Mathlib

/-!
# Verification of the datamart-userend join/augmentation core

Shallow embedding of the search-result ranking and candidate-join resolution
engine of `datamart_isi` (`entries.py`, `augment.py`), together with proofs
about its row-matching, cardinality-guard, merge and temporal-scoring logic.

Tables are modelled as ordered column-name lists plus rows of optional string
cells (`none` models a pandas `NaN`).  The pandas dataframes in `_augment`
are keyed by column name (rows are converted to name-to-value dicts before
merging), so cell access is modelled by name lookup.  Machine floats used by
the temporal score are modelled by rationals (the operations involved are
exact on the inputs considered).
-/

namespace Datamart

/-- A dataframe: named columns in order, rows as lists of optional cells.
`none` models a missing value (pandas `NaN`). -/
structure DFrame where
  cols : List String
  rows : List (List (Option String))
deriving DecidableEq, Repr

/-- Name-based cell lookup inside one row, mirroring `pandas.Series.__getitem__`
on a row whose index is the column-name list: first matching column wins. -/
def rowLookup : List String → List (Option String) → String → Option String
  | [], _, _ => none
  | _, [], _ => none
  | c' :: cs, v :: vs, c => if c' = c then v else rowLookup cs vs c

/-- Cell of a dataframe at row position `r` (default RangeIndex: label =
position) and column name `c`. -/
def DFrame.cell (df : DFrame) (r : Nat) (c : String) : Option String :=
  match df.rows[r]? with
  | some row => rowLookup df.cols row c
  | none => none

/-! ## Cardinality guard (`DatamartSearchResult._augment`, entries.py 1689-1719)

`maximum_accept_duplicate_amount = supplied_dataframe.shape[0] / 20` is an
exact float division; `len(x) >= n / 20` is equivalent to `20 * len(x) >= n`
over the integers, which is how the comparison is embedded. -/

/-- State of the duplicate-counting loop: the two `defaultdict(list)` maps and
the two oversize flags. -/
structure GuardState where
  leftPairs : List (Nat × List Nat)
  rightPairs : List (Nat × List Nat)
  leftOversize : Bool
  rightOversize : Bool
deriving DecidableEq, Repr

/-- `defaultdict(list)` read: missing keys give the empty list. -/
def lookupDefault (m : List (Nat × List Nat)) (k : Nat) : List Nat :=
  match m.lookup k with
  | some v => v
  | none => []

/-- `defaultdict(list)` write. -/
def updateAssoc : List (Nat × List Nat) → Nat → List Nat → List (Nat × List Nat)
  | [], k, v => [(k, v)]
  | (k', v') :: rest, k, v =>
    if k' = k then (k, v) :: rest else (k', v') :: updateAssoc rest k v

/-- One iteration of the `for r1, r2 in self.pairs` loop (entries.py
1705-1715).  The left list is only appended to inside the branch whose test it
already failed to exceed; the right list is appended to in the `elif`. -/
def guardStep (n : Nat) (st : GuardState) (p : Nat × Nat) : GuardState :=
  let lp := lookupDefault st.leftPairs p.1
  let st1 :=
    if 20 * lp.length ≥ n then
      { st with leftOversize := true, leftPairs := updateAssoc st.leftPairs p.1 (lp ++ [p.2]) }
    else st
  let rp := lookupDefault st1.rightPairs p.2
  if 20 * rp.length ≥ n then
    { st1 with rightOversize := true }
  else if st1.rightOversize then st1
  else { st1 with rightPairs := updateAssoc st1.rightPairs p.2 (rp ++ [p.1]) }

/-- The duplicate-counting loop; raises (returns `error`) when both oversize
flags are already set at the top of an iteration. -/
def guardLoop (n : Nat) : List (Nat × Nat) → GuardState → Except String GuardState
  | [], st => Except.ok st
  | p :: rest, st =>
    if st.leftOversize && st.rightOversize then
      Except.error "Should not augment for n-m relationship."
    else guardLoop n rest (guardStep n st p)

/-- The complete cardinality check of `_augment` for `search_type == "general"`:
the scan over the `joining_pairs` column (entries.py 1697-1700), the
duplicate-counting loop, and the final n-to-m test (entries.py 1717-1719).
`n` is `supplied_dataframe.shape[0]`. -/
def cardinalityCheck (joinPairColumn : List (List Nat)) (pairs : List (Nat × Nat))
    (n : Nat) : Except String Unit :=
  if joinPairColumn.any (fun row => 20 * row.length ≥ n) then
    Except.error "Too much available join columns"
  else
    match guardLoop n pairs ⟨[], [], false, false⟩ with
    | Except.error e => Except.error e
    | Except.ok st =>
      if st.leftOversize && st.rightOversize then
        Except.error "Should not augment for n-m relationship."
      else Except.ok ()

/-- Number of distinct right row indices paired with left row index `l`. -/
def leftFanout (pairs : List (Nat × Nat)) (l : Nat) : Nat :=
  ((pairs.filter (fun p => p.1 = l)).map Prod.snd).dedup.length

/-- Number of distinct left row indices paired with right row index `r`. -/
def rightFanout (pairs : List (Nat × Nat)) (r : Nat) : Nat :=
  ((pairs.filter (fun p => p.2 = r)).map Prod.fst).dedup.length

/-- Maximum left-side fan-out over the pair set. -/
def maxLeftFanout (pairs : List (Nat × Nat)) : Nat :=
  ((pairs.map Prod.fst).dedup.map (leftFanout pairs)).foldr max 0

/-- Maximum right-side fan-out over the pair set. -/
def maxRightFanout (pairs : List (Nat × Nat)) : Nat :=
  ((pairs.map Prod.snd).dedup.map (rightFanout pairs)).foldr max 0

/-! ## Merge (`DatamartSearchResult._augment`, entries.py 1722-1795) -/

/-- First-occurrence deduplication of the pair list by left row index,
mirroring the `r1_paired` skip in the merge loop (entries.py 1736-1741). -/
def dedupPairsByLeft : List (Nat × Nat) → List Nat → List (Nat × Nat)
  | [], _ => []
  | p :: rest, seen =>
    if p.1 ∈ seen then dedupPairsByLeft rest seen
    else p :: dedupPairsByLeft rest (p.1 :: seen)

/-- The right row index actually used for left row `l` (the first pair kept
for `l` by the merge loop), if any. -/
def firstRightFor (pairs : List (Nat × Nat)) (l : Nat) : Option Nat :=
  (dedupPairsByLeft pairs []).lookup l

/-- String order used to model the sorted result of `pandas.Index.difference`. -/
def strLE (a b : String) : Prop := a ≤ b

instance : DecidableRel strLE := fun a b => inferInstanceAs (Decidable (a ≤ b))

/-- Sorted unique difference `right_res.index.difference(left_res.index)`
(entries.py 1745); the left index contains the supplied columns plus the
`**original_index**` helper column added at entries.py 1729. -/
def augmentJoinColsBase (leftCols rightCols : List String) : List String :=
  List.insertionSort strLE
    ((rightCols.filter (fun c => ¬ (c ∈ leftCols ∨ c = "**original_index**"))).dedup)

/-- The final list of right-table columns to append: the sorted difference,
minus the right join column (entries.py 1746-1750), intersected with the
caller-requested `augment_columns` when that list is nonempty (entries.py
1752-1761; indices out of the metadata range are ignored with a logged
error). -/
def augmentJoinCols (leftCols rightCols : List String) (rjcn : String)
    (mcn : List String) (ac : List Nat) : List String :=
  let base := (augmentJoinColsBase leftCols rightCols).filter (fun c => c ≠ rjcn)
  if ac.isEmpty then base
  else base.filter (fun c => c ∈ ac.filterMap (fun i => mcn[i]?))

/-- One output row keyed by the final column list: the row dict is
`dcit_right.update(dict_left)` (entries.py 1765-1767), so a column present on
the left takes the left row's value and any other (necessarily a join column)
takes the right row's value. -/
def buildRow (cols leftCols : List String) (lv rv : String → Option String) :
    List (Option String) :=
  cols.map (fun c => if c ∈ leftCols then lv c else rv c)

/-- A merged row tagged with its `**original_index**` value (the helper
column added at entries.py 1729 only drives the final sort and is then
dropped, so it is carried as a tag instead of a literal cell). -/
abbrev TaggedRow := Nat × List (Option String)

/-- Order used by `df_joined.sort_values(by='**original_index**')`
(entries.py 1787): ascending original index. -/
def tagLE (a b : TaggedRow) : Prop := a.1 ≤ b.1

instance : DecidableRel tagLE := fun a b => Nat.decLe a.1 b.1

instance : IsTotal TaggedRow tagLE := ⟨fun a b => Nat.le_total a.1 b.1⟩

instance : IsTrans TaggedRow tagLE := ⟨fun _ _ _ h h' => Nat.le_trans h h'⟩

/-- Columns dropped from the merged result: the `**original_index**` helper
(entries.py 1788) and the `q_node` / `id` columns (entries.py 1791-1795). -/
def keepMergedCol (c : String) : Prop :=
  ¬ (c = "**original_index**" ∨ c = "q_node" ∨ c = "id")

instance : DecidablePred keepMergedCol := fun c =>
  inferInstanceAs (Decidable (¬ (c = "**original_index**" ∨ c = "q_node" ∨ c = "id")))

/-- The right-table columns actually appended by the merge: none when no pair
was kept (then `columns_new` stays `None` and only the error at entries.py
1781 is logged), the filtered join columns otherwise. -/
def augmentAddedCols (left right : DFrame) (pairs : List (Nat × Nat))
    (rjcn : String) (mcn : List String) (ac : List Nat) : List String :=
  if (dedupPairsByLeft pairs []).isEmpty then []
  else augmentJoinCols left.cols right.cols rjcn mcn ac

/-- Column list of the merged dataframe: supplied columns, then the appended
right columns, with the helper / `q_node` / `id` columns dropped. -/
def augmentFinalCols (left right : DFrame) (pairs : List (Nat × Nat))
    (rjcn : String) (mcn : List String) (ac : List Nat) : List String :=
  (left.cols ++ augmentAddedCols left right pairs rjcn mcn ac).filter
    (fun c => keepMergedCol c)

/-- The rows built by the merge loop (entries.py 1736-1768): one row per
distinct left index, from its first pair, tagged with the left (original)
index. -/
def augmentPairedRows (left right : DFrame) (pairs : List (Nat × Nat))
    (rjcn : String) (mcn : List String) (ac : List Nat) : List TaggedRow :=
  (dedupPairsByLeft pairs []).map (fun p =>
    (p.1, buildRow (augmentFinalCols left right pairs rjcn mcn ac) left.cols
      (left.cell p.1) (right.cell p.2)))

/-- The rows appended for left rows without a pair (entries.py 1771-1775);
their join columns are missing values. -/
def augmentUnpairedRows (left right : DFrame) (pairs : List (Nat × Nat))
    (rjcn : String) (mcn : List String) (ac : List Nat) : List TaggedRow :=
  ((List.range left.rows.length).filter
      (fun i => ¬ i ∈ (dedupPairsByLeft pairs []).map Prod.fst)).map
    (fun i => (i, buildRow (augmentFinalCols left right pairs rjcn mcn ac)
      left.cols (left.cell i) (fun _ => none)))

/-- All merged rows, sorted back to ascending original index
(entries.py 1787-1788). -/
def augmentMergedRows (left right : DFrame) (pairs : List (Nat × Nat))
    (rjcn : String) (mcn : List String) (ac : List Nat) :
    List (List (Option String)) :=
  (List.insertionSort tagLE
    (augmentPairedRows left right pairs rjcn mcn ac ++
      augmentUnpairedRows left right pairs rjcn mcn ac)).map Prod.snd

/-- The merge part of `_augment` for a general-search result (entries.py
1689-1795), applied after `download` has produced the right-side dataframe.

* `left` is the supplied dataframe, `right` the download result with its
  `joining_pairs` column already dropped (entries.py 1687-1688);
* `jpc` is the dropped `joining_pairs` column;
* `pairs` is `self.pairs`;
* `rjcn` is `search_result['variableName']['value']`;
* `mcn` are the column names of the search result's D3M metadata, and `ac`
  the `column_index` fields of the caller's `augment_columns`.

Errors model the `ValueError`s raised by the cardinality check.  The rows are
built once per distinct left index from its first pair, the left rows without
pairs are appended with missing values in the join columns, and everything is
sorted back to ascending original index. -/
def augmentGeneral (left right : DFrame) (jpc : List (List Nat))
    (pairs : List (Nat × Nat)) (rjcn : String) (mcn : List String)
    (ac : List Nat) : Except String DFrame :=
  match cardinalityCheck jpc pairs left.rows.length with
  | Except.error e => Except.error e
  | Except.ok _ =>
    Except.ok ⟨augmentFinalCols left right pairs rjcn mcn ac,
      augmentMergedRows left right pairs rjcn mcn ac⟩

/-! ## Temporal match score (`DatamartQueryCursor._search_datamart`,
entries.py 454-485)

`start_date`/`end_date` are the query range timestamps, `start_time`/
`end_time` the dataset range timestamps.  The `else`-branches marked
unreachable correspond to situations where the Python code would leave
`time_score` unbound; they are provably never taken. -/

def timeScore (startDate endDate startTime endTime : Rat) : Rat :=
  let denominator := endDate - startDate
  if endDate > endTime then
    if startDate > endTime then 0
    else if startDate ≥ startTime ∧ endTime ≥ startDate then
      (endTime - startDate) / denominator
    else if startTime > startDate then (endTime - startTime) / denominator
    else 0  -- unreachable
  else if endDate ≥ startTime ∧ endTime ≥ endDate then
    if startDate ≥ startTime then 1
    else if startTime > startDate then (endDate - startTime) / denominator
    else 0  -- unreachable
  else if startTime > endDate then 0
  else 0  -- unreachable

/-! ## `TabularJoinSpec` (entries.py 1993-2069) -/

/-- `d3m.container.DatasetColumn`: a (resource id, column index) pair. -/
structure DatasetColumn where
  resource_id : Option String
  column_index : Nat
deriving DecidableEq, Repr

/-- A join spec; built by `TabularJoinSpec.build` below, which mirrors
`TabularJoinSpec.__init__`. -/
structure TabularJoinSpec where
  left_resource_id : Option String
  right_resource_id : Option String
  left_columns : List (List DatasetColumn)
  right_columns : List (List DatasetColumn)
deriving DecidableEq, Repr

/-- `TabularJoinSpec.__init__` (entries.py 2010-2022): mismatched column-group
list lengths are truncated to the shorter with a printed diagnostic. -/
def TabularJoinSpec.build (leftColumns rightColumns : List (List DatasetColumn))
    (leftResourceId rightResourceId : Option String) : TabularJoinSpec :=
  if leftColumns.length ≠ rightColumns.length then
    let shorterLen := min rightColumns.length leftColumns.length
    ⟨leftResourceId, rightResourceId, leftColumns.take shorterLen,
      rightColumns.take shorterLen⟩
  else ⟨leftResourceId, rightResourceId, leftColumns, rightColumns⟩

/-- `TabularJoinSpec.from_column_number_pairs` (entries.py 2044-2069): the
serialized dict's `left_columns` / `right_columns` entries; mismatched lengths
raise a `ValueError` (entries.py 2055-2057). -/
def TabularJoinSpec.from_column_number_pairs (leftPairs rightPairs : List (List Nat)) :
    Except String TabularJoinSpec :=
  if leftPairs.length ≠ rightPairs.length then
    Except.error "The given join pairs length on left and right are different."
  else
    Except.ok (TabularJoinSpec.build
      (leftPairs.map (fun g => g.map (fun i => ⟨none, i⟩)))
      (rightPairs.map (fun g => g.map (fun i => ⟨none, i⟩)))
      none none)

/-! ## Wikidata download dispatch
(`DatamartSearchResult._download_wikidata`, entries.py 1401-1419, and
`_dummy_download_wikidata`, entries.py 1372-1399) -/

/-- `list.index` wrapped in `try/except` (entries.py 1411-1414): the first
position of `target` among the supplied columns, or `None`. -/
def qNodeColumnNumber (cols : List String) (target : String) : Option Nat :=
  cols.findIdx? (fun c => c == target)

/-- Which download path `_download_wikidata` takes. -/
inductive WikidataPath where
  | dummy
  | normal (qColumn : Nat)
deriving DecidableEq, Repr

/-- The dispatch in `_download_wikidata` (entries.py 1411-1419): the dummy
fallback is taken when `not q_node_column_number` holds in Python, i.e. when
the lookup failed *or returned position 0*. -/
def downloadWikidataDispatch (cols : List String) (target : String) : WikidataPath :=
  match qNodeColumnNumber cols target with
  | none => WikidataPath.dummy
  | some q => if q = 0 then WikidataPath.dummy else WikidataPath.normal q

/-- `_dummy_download_wikidata` (entries.py 1372-1399): a copy of the supplied
dataframe with one empty placeholder column per needed P node plus a
`joining_pairs` column, all cells set to the empty string.  `nodeName` stands
for `Utils.get_node_name`, an external name-resolution helper. -/
def dummyDownloadWikidata (supplied : DFrame) (nodeName : String → String)
    (pNodesNeeded : List String) (target : String) : DFrame :=
  let columnsNeedToAdd :=
    (pNodesNeeded.map (fun p => target ++ "_" ++ nodeName p)) ++ ["joining_pairs"]
  ⟨supplied.cols ++ columnsNeedToAdd,
    supplied.rows.map (fun row => row ++ columnsNeedToAdd.map (fun _ => some ""))⟩

/-! ## Temporal range overlap (`Augment.parse_sparql_query`, augment.py
116-130, and `DatamartQueryCursor._search_with_time_columns`,
entries.py 732-746) -/

/-- The SPARQL overlap filter emitted at augment.py 129 for a query range
`[qs, qe]` against a dataset range `[ds, de]`:
`!((start_time > end_date) || (end_time < start_date))`. -/
def temporalFilterKeeps (ds de qs qe : Rat) : Bool :=
  !(decide (ds > qe) || decide (de < qs))

/-- Modelled from the spec: `Utils.overlap` (datamart_isi/utilities/utils.py,
not part of the provided sources; its caller is entries.py 746): two closed
intervals `[a.1, a.2]` and `[b.1, b.2]` overlap iff
`a_start <= b_end and b_start <= a_end`, after both ends have been normalized
to UTC (the normalization is the identity on the numeric timestamps used
here). -/
def overlap (a b : Rat × Rat) : Bool :=
  decide (a.1 ≤ b.2) && decide (b.1 ≤ a.2)

/-! ## Search cursor paging (`DatamartQueryCursor.get_next_page`,
entries.py 113-196)

Search results are modelled by their scores; each pending search query is
modelled by its outcome (`none` for a failed/timed-out search, `some rs` for
a finished one), since `get_next_page` only extends the current result list
with the results of queries that succeeded. -/

/-- Descending score order used by
`sorted(current_result, key=lambda x: x.score(), reverse=True)`. -/
def scoreDesc (a b : Rat) : Prop := b ≤ a

instance : DecidableRel scoreDesc := fun a b => inferInstanceAs (Decidable (b ≤ a))

instance : IsTotal Rat scoreDesc := ⟨fun a b => le_total b a⟩

instance : IsTrans Rat scoreDesc := ⟨fun _ _ _ h h' => le_trans h' h⟩

/-- The cursor state relevant to paging: `self.remained_part` and the search
queries not yet executed (with their eventual outcomes). -/
structure CursorState where
  remained : List Rat
  queries : List (Option (List Rat))
deriving DecidableEq, Repr

/-- `get_next_page` with a non-`None` integer `limit` (entries.py 138-196):
if the retained part already exceeds the limit, return its first `limit`
results and keep the rest without running any query; otherwise run all
remaining queries, extend the current results with the successful ones,
return `None` if nothing was found, and otherwise sort by descending score,
returning the first `limit` results and retaining the rest. -/
def getNextPage (limit : Nat) (st : CursorState) :
    Option (List Rat) × CursorState :=
  if st.remained.length > limit then
    (some (st.remained.take limit), ⟨st.remained.drop limit, st.queries⟩)
  else if (st.remained ++ (st.queries.filterMap id).flatten).length = 0 then
    (none, ⟨st.remained, []⟩)
  else if (List.insertionSort scoreDesc
      (st.remained ++ (st.queries.filterMap id).flatten)).length > limit then
    (some ((List.insertionSort scoreDesc
        (st.remained ++ (st.queries.filterMap id).flatten)).take limit),
      ⟨(List.insertionSort scoreDesc
        (st.remained ++ (st.queries.filterMap id).flatten)).drop limit, []⟩)
  else
    (some (List.insertionSort scoreDesc
      (st.remained ++ (st.queries.filterMap id).flatten)), ⟨st.remained, []⟩)

/-- All results a cursor state can still deliver: the retained part plus the
results of the pending queries that will succeed. -/
def availableResults (st : CursorState) : List Rat :=
  st.remained ++ (st.queries.filterMap id).flatten

/-! ## Helper lemmas -/

theorem rowLookup_map (cols : List String) (f : String → Option String) (c : String)
    (hc : c ∈ cols) : rowLookup cols (cols.map f) c = f c := by
  induction cols with
  | nil => cases hc
  | cons c' cs ih =>
    simp only [List.map_cons, rowLookup]
    by_cases h : c' = c
    · simp [h]
    · simp only [if_neg h]
      exact ih (by rcases List.mem_cons.1 hc with h' | h'; exact absurd h'.symm h; exact h')

theorem DFrame.cell_eq_rowLookup (df : DFrame) (r : Nat)
    (row : List (Option String)) (hrow : df.rows[r]? = some row) (c : String) :
    df.cell r c = rowLookup df.cols row c := by
  unfold DFrame.cell
  rw [hrow]

theorem mem_dedupPairsByLeft {p : Nat × Nat} :
    ∀ (ps : List (Nat × Nat)) (seen : List Nat),
      p ∈ dedupPairsByLeft ps seen → p ∈ ps ∧ p.1 ∉ seen := by
  intro ps
  induction ps with
  | nil => intro seen h; cases h
  | cons q rest ih =>
    intro seen h
    unfold dedupPairsByLeft at h
    by_cases hq : q.1 ∈ seen
    · rw [if_pos hq] at h
      obtain ⟨h1, h2⟩ := ih seen h
      exact ⟨List.mem_cons_of_mem _ h1, h2⟩
    · rw [if_neg hq] at h
      rcases List.mem_cons.1 h with h' | h'
      · exact ⟨h' ▸ List.mem_cons_self _ _, h' ▸ hq⟩
      · obtain ⟨h1, h2⟩ := ih _ h'
        exact ⟨List.mem_cons_of_mem _ h1,
          fun hmem => h2 (List.mem_cons_of_mem _ hmem)⟩

theorem nodup_fst_dedupPairsByLeft :
    ∀ (ps : List (Nat × Nat)) (seen : List Nat),
      ((dedupPairsByLeft ps seen).map Prod.fst).Nodup := by
  intro ps
  induction ps with
  | nil => intro seen; simp [dedupPairsByLeft]
  | cons q rest ih =>
    intro seen
    unfold dedupPairsByLeft
    by_cases hq : q.1 ∈ seen
    · rw [if_pos hq]; exact ih seen
    · rw [if_neg hq]
      simp only [List.map_cons, List.nodup_cons]
      refine ⟨fun hmem => ?_, ih _⟩
      obtain ⟨p, hp, hfst⟩ := List.mem_map.1 hmem
      exact (mem_dedupPairsByLeft rest _ hp).2 (hfst ▸ List.mem_cons_self _ _)

theorem exists_dedupPairsByLeft_of_mem {l r : Nat} :
    ∀ (ps : List (Nat × Nat)) (seen : List Nat),
      (l, r) ∈ ps → l ∉ seen →
      ∃ r', (l, r') ∈ dedupPairsByLeft ps seen := by
  intro ps
  induction ps with
  | nil => intro seen h; cases h
  | cons q rest ih =>
    intro seen hmem hseen
    unfold dedupPairsByLeft
    by_cases hq : q.1 ∈ seen
    · rw [if_pos hq]
      rcases List.mem_cons.1 hmem with h' | h'
      · exact absurd (show l ∈ seen from by
          rw [show l = q.1 from congrArg Prod.fst h']; exact hq) hseen
      · exact ih seen h' hseen
    · rw [if_neg hq]
      by_cases hql : q.1 = l
      · exact ⟨q.2, by rw [← hql]; exact List.mem_cons_self _ _⟩
      · rcases List.mem_cons.1 hmem with h' | h'
        · exact absurd (congrArg Prod.fst h'.symm) hql
        · obtain ⟨r', hr'⟩ := ih (q.1 :: seen) h'
            (by intro hx; rcases List.mem_cons.1 hx with hx | hx
                exacts [hql hx.symm, hseen hx])
          exact ⟨r', List.mem_cons_of_mem _ hr'⟩

/-- Lexicographic order on pairs; `self.pairs` being "in ascending
`(left_row_index, right_row_index)` order" means pairwise `pairLexLE`. -/
def pairLexLE (p q : Nat × Nat) : Prop :=
  p.1 < q.1 ∨ (p.1 = q.1 ∧ p.2 ≤ q.2)

instance : DecidableRel pairLexLE := fun p q =>
  inferInstanceAs (Decidable (p.1 < q.1 ∨ (p.1 = q.1 ∧ p.2 ≤ q.2)))

theorem dedupPairsByLeft_min_right {l r : Nat} :
    ∀ (ps : List (Nat × Nat)) (seen : List Nat),
      List.Pairwise pairLexLE ps →
      (l, r) ∈ dedupPairsByLeft ps seen →
      ∀ r', (l, r') ∈ ps → r ≤ r' := by
  intro ps
  induction ps with
  | nil => intro seen _ h; cases h
  | cons q rest ih =>
    intro seen hsorted hmem r' hr'
    have hps := List.pairwise_cons.1 hsorted
    unfold dedupPairsByLeft at hmem
    by_cases hq : q.1 ∈ seen
    · rw [if_pos hq] at hmem
      rcases List.mem_cons.1 hr' with h' | h'
      · exact absurd (by rw [← congrArg Prod.fst h'.symm]; exact hq)
          (mem_dedupPairsByLeft rest seen hmem).2
      · exact ih seen hps.2 hmem r' h'
    · rw [if_neg hq] at hmem
      rcases List.mem_cons.1 hmem with h'' | h''
      · rcases List.mem_cons.1 hr' with h' | h'
        · have : q.2 = r' := congrArg Prod.snd h'.symm
          have hr2 : q.2 = r := congrArg Prod.snd h''.symm
          omega
        · have hrel := hps.1 (l, r') h'
          have hq1 : q.1 = l := congrArg Prod.fst h''.symm
          have hq2 : q.2 = r := congrArg Prod.snd h''.symm
          rcases hrel with hlt | ⟨heq, hle⟩
          · simp only [hq1] at hlt; omega
          · simp only [hq2] at hle; exact hle
      · rcases List.mem_cons.1 hr' with h' | h'
        · have hq1 : q.1 = l := congrArg Prod.fst h'.symm
          exact absurd (hq1 ▸ List.mem_cons_self q.1 seen)
            ((mem_dedupPairsByLeft rest _ h'').2 ∘ (hq1 ▸ ·))
        · exact ih (q.1 :: seen) hps.2 h'' r' h'

theorem lookup_eq_some_of_nodup_mem {l r : Nat} :
    ∀ ps : List (Nat × Nat), (ps.map Prod.fst).Nodup → (l, r) ∈ ps →
      ps.lookup l = some r := by
  intro ps
  induction ps with
  | nil => intro _ h; cases h
  | cons q rest ih =>
    intro hnd hmem
    simp only [List.map_cons, List.nodup_cons] at hnd
    rcases List.mem_cons.1 hmem with h' | h'
    · rw [← h']
      simp [List.lookup]
    · have hne : l ≠ q.1 := by
        intro h
        exact hnd.1 (h ▸ List.mem_map.2 ⟨(l, r), h', rfl⟩)
      have : (l == q.1) = false := beq_false_of_ne hne
      simp only [List.lookup, this]
      exact ih hnd.2 h'

theorem lookup_eq_none_of_not_mem {l : Nat} :
    ∀ ps : List (Nat × Nat), l ∉ ps.map Prod.fst → ps.lookup l = none := by
  intro ps
  induction ps with
  | nil => intro _; rfl
  | cons q rest ih =>
    intro hmem
    simp only [List.map_cons, List.mem_cons, not_or] at hmem
    have : (l == q.1) = false := beq_false_of_ne hmem.1
    simp only [List.lookup, this]
    exact ih hmem.2

theorem keys_unique {i : Nat} {row row' : List (Option String)} :
    ∀ l : List TaggedRow, (l.map Prod.fst).Nodup →
      (i, row) ∈ l → (i, row') ∈ l → row = row' := by
  intro l
  induction l with
  | nil => intro _ h; cases h
  | cons q rest ih =>
    intro hnd h1 h2
    simp only [List.map_cons, List.nodup_cons] at hnd
    rcases List.mem_cons.1 h1 with h1' | h1' <;> rcases List.mem_cons.1 h2 with h2' | h2'
    · exact congrArg Prod.snd (h1'.trans h2'.symm)
    · exfalso
      apply hnd.1
      have hq1 : q.1 = i := congrArg Prod.fst h1'.symm
      rw [hq1]
      exact List.mem_map.2 ⟨(i, row'), h2', rfl⟩
    · exfalso
      apply hnd.1
      have hq1 : q.1 = i := congrArg Prod.fst h2'.symm
      rw [hq1]
      exact List.mem_map.2 ⟨(i, row), h1', rfl⟩
    · exact ih hnd.2 h1' h2'

/-- The sorted tagged rows, when the tags are exactly `0, ..., n-1`, have the
row tagged `i` at position `i`. -/
theorem sorted_tagged_get (l : List TaggedRow) (n : Nat)
    (hnd : (l.map Prod.fst).Nodup)
    (hmem : ∀ t, t ∈ l.map Prod.fst ↔ t < n) :
    (List.insertionSort tagLE l).length = n ∧
    ∀ i, i < n → ∃ row,
      (List.insertionSort tagLE l)[i]? = some (i, row) ∧ (i, row) ∈ l := by
  set s := List.insertionSort tagLE l with hs
  have hperm : s.Perm l := List.perm_insertionSort tagLE l
  have hsor : List.Sorted tagLE s := List.sorted_insertionSort tagLE l
  have hsorfst : List.Sorted (· ≤ ·) (s.map Prod.fst) :=
    List.Pairwise.map Prod.fst (fun _ _ h => h) hsor
  have hpermfst : (s.map Prod.fst).Perm (l.map Prod.fst) := hperm.map Prod.fst
  have hndfst : (s.map Prod.fst).Nodup := hpermfst.nodup_iff.2 hnd
  have hrange : (s.map Prod.fst).Perm (List.range n) := by
    rw [List.perm_ext_iff_of_nodup hndfst (List.nodup_range n)]
    intro t
    rw [List.mem_range, ← hmem t]
    exact hpermfst.mem_iff
  have hsorted_range : List.Sorted (· ≤ ·) (List.range n) :=
    (List.pairwise_lt_range n).imp le_of_lt
  have heq : s.map Prod.fst = List.range n :=
    List.eq_of_perm_of_sorted hrange hsorfst hsorted_range
  have hlen : s.length = n := by
    have := congrArg List.length heq
    simpa using this
  refine ⟨hlen, fun i hi => ?_⟩
  have hmi : i < s.length := hlen ▸ hi
  have hfst : (s.get ⟨i, hmi⟩).1 = i := by
    have h1 : (s.map Prod.fst)[i]? = some (s.get ⟨i, hmi⟩).1 := by
      rw [List.getElem?_map]
      simp [List.getElem?_eq_getElem hmi]
    have h2 : (List.range n)[i]? = some i := by
      simp [List.getElem?_range hi]
    rw [heq, h2] at h1
    exact (Option.some_injective _ h1).symm
  have hpair : s.get ⟨i, hmi⟩ = (i, (s.get ⟨i, hmi⟩).2) :=
    Prod.ext_iff.2 ⟨hfst, rfl⟩
  refine ⟨(s.get ⟨i, hmi⟩).2, ?_, ?_⟩
  · rw [List.getElem?_eq_getElem hmi]
    exact congrArg some hpair
  · rw [← hpair]
    exact hperm.subset (List.get_mem s i hmi)

theorem buildRow_congr (cols leftCols : List String)
    (lv rvA rvB : String → Option String) (h : ∀ c, rvA c = rvB c) :
    buildRow cols leftCols lv rvA = buildRow cols leftCols lv rvB := by
  have heq : rvA = rvB := funext h
  rw [heq]

/-- Characterization of a successful `augmentGeneral`: the column list is
`augmentFinalCols`, there is exactly one row per left row, and the row at
position `i` is built from left row `i` and (when `i` is paired) the right
row of its first pair. -/
theorem augmentGeneral_cells
    (left right : DFrame) (jpc : List (List Nat)) (pairs : List (Nat × Nat))
    (rjcn : String) (mcn : List String) (ac : List Nat) (out : DFrame)
    (hok : augmentGeneral left right jpc pairs rjcn mcn ac = Except.ok out)
    (hvalid : ∀ p ∈ pairs, p.1 < left.rows.length) :
    out.cols = augmentFinalCols left right pairs rjcn mcn ac ∧
    out.rows.length = left.rows.length ∧
    ∀ i, i < left.rows.length →
      out.rows[i]? = some (buildRow (augmentFinalCols left right pairs rjcn mcn ac)
        left.cols (left.cell i)
        (fun c => match firstRightFor pairs i with
          | some r2 => right.cell r2 c
          | none => none)) := by
  have hout : out = ⟨augmentFinalCols left right pairs rjcn mcn ac,
      augmentMergedRows left right pairs rjcn mcn ac⟩ := by
    unfold augmentGeneral at hok
    cases hcc : cardinalityCheck jpc pairs left.rows.length with
    | error e => rw [hcc] at hok; cases hok
    | ok u => rw [hcc] at hok; exact (Except.ok.inj hok).symm
  subst hout
  set n := left.rows.length with hn
  set tagged := augmentPairedRows left right pairs rjcn mcn ac ++
    augmentUnpairedRows left right pairs rjcn mcn ac with htagged
  have hpm : (augmentPairedRows left right pairs rjcn mcn ac).map Prod.fst =
      (dedupPairsByLeft pairs []).map Prod.fst := by
    unfold augmentPairedRows
    rw [List.map_map]
    rfl
  have hum : (augmentUnpairedRows left right pairs rjcn mcn ac).map Prod.fst =
      (List.range n).filter
        (fun i => ¬ i ∈ (dedupPairsByLeft pairs []).map Prod.fst) := by
    unfold augmentUnpairedRows
    rw [List.map_map, ← hn]
    exact List.map_id _
  have htags : tagged.map Prod.fst =
      (dedupPairsByLeft pairs []).map Prod.fst ++
      (List.range n).filter
        (fun i => ¬ i ∈ (dedupPairsByLeft pairs []).map Prod.fst) := by
    rw [htagged, List.map_append, hpm, hum]
  have hnd : (tagged.map Prod.fst).Nodup := by
    rw [htags]
    refine List.nodup_append.2 ⟨nodup_fst_dedupPairsByLeft pairs [],
      (List.nodup_range n).filter _, ?_⟩
    intro a ha hb
    have hfb := (List.mem_filter.1 hb).2
    simp only [decide_not, Bool.not_eq_eq_eq_not, Bool.not_true,
      decide_eq_false_iff_not] at hfb
    exact hfb ha
  have hmem : ∀ t, t ∈ tagged.map Prod.fst ↔ t < n := by
    intro t
    rw [htags]
    constructor
    · intro h
      rcases List.mem_append.1 h with h | h
      · obtain ⟨p, hp, hfst⟩ := List.mem_map.1 h
        obtain ⟨hp', _⟩ := mem_dedupPairsByLeft pairs [] hp
        exact hfst ▸ hvalid p hp'
      · exact List.mem_range.1 (List.mem_filter.1 h).1
    · intro h
      by_cases hc : t ∈ (dedupPairsByLeft pairs []).map Prod.fst
      · exact List.mem_append.2 (Or.inl hc)
      · refine List.mem_append.2 (Or.inr (List.mem_filter.2
          ⟨List.mem_range.2 h, ?_⟩))
        simpa using hc
  obtain ⟨hslen, hsget⟩ := sorted_tagged_get tagged n hnd hmem
  refine ⟨rfl, ?_, ?_⟩
  · show (augmentMergedRows left right pairs rjcn mcn ac).length = n
    unfold augmentMergedRows
    rw [List.length_map, ← htagged]
    exact hslen
  · intro i hi
    obtain ⟨row, hrow, hmemrow⟩ := hsget i hi
    have hrowi : (augmentMergedRows left right pairs rjcn mcn ac)[i]? = some row := by
      unfold augmentMergedRows
      rw [← htagged, List.getElem?_map, hrow]
      rfl
    show (augmentMergedRows left right pairs rjcn mcn ac)[i]? = _
    rw [hrowi]
    congr 1
    rcases List.mem_append.1 hmemrow with hmr | hmr
    · obtain ⟨p, hp, heqp⟩ := List.mem_map.1 hmr
      have hp1 : p.1 = i := congrArg Prod.fst heqp
      have hp2 : row = buildRow (augmentFinalCols left right pairs rjcn mcn ac)
          left.cols (left.cell p.1) (right.cell p.2) :=
        (congrArg Prod.snd heqp).symm
      have hpmem : (i, p.2) ∈ dedupPairsByLeft pairs [] := by
        rw [← hp1]
        exact hp
      have hlook : firstRightFor pairs i = some p.2 :=
        lookup_eq_some_of_nodup_mem (dedupPairsByLeft pairs [])
          (nodup_fst_dedupPairsByLeft pairs []) hpmem
      rw [hp2, hp1]
      refine buildRow_congr _ _ _ _ _ (fun c => ?_)
      rw [hlook]
    · obtain ⟨j, hj, heqj⟩ := List.mem_map.1 hmr
      have hj1 : j = i := congrArg Prod.fst heqj
      have hj2 : row = buildRow (augmentFinalCols left right pairs rjcn mcn ac)
          left.cols (left.cell j) (fun _ => none) :=
        (congrArg Prod.snd heqj).symm
      have hnotin : i ∉ (dedupPairsByLeft pairs []).map Prod.fst := by
        have hfb := (List.mem_filter.1 hj).2
        rw [hj1] at hfb
        simp only [decide_not, Bool.not_eq_eq_eq_not, Bool.not_true,
          decide_eq_false_iff_not] at hfb
        exact hfb
      have hlook : firstRightFor pairs i = none :=
        lookup_eq_none_of_not_mem (dedupPairsByLeft pairs []) hnotin
      rw [hj2, hj1]
      refine buildRow_congr _ _ _ _ _ (fun c => ?_)
      rw [hlook]

/-- The value of a cell of a successful merge, by column origin: a supplied
column keeps the left value, an appended column takes the right value of the
first pair (or stays empty when the left row is unpaired). -/
theorem augmentGeneral_cell
    (left right : DFrame) (jpc : List (List Nat)) (pairs : List (Nat × Nat))
    (rjcn : String) (mcn : List String) (ac : List Nat) (out : DFrame)
    (hok : augmentGeneral left right jpc pairs rjcn mcn ac = Except.ok out)
    (hvalid : ∀ p ∈ pairs, p.1 < left.rows.length)
    (i : Nat) (hi : i < left.rows.length) (c : String)
    (hcfin : c ∈ augmentFinalCols left right pairs rjcn mcn ac) :
    out.cell i c = if c ∈ left.cols then left.cell i c
      else match firstRightFor pairs i with
        | some r2 => right.cell r2 c
        | none => none := by
  obtain ⟨hcols, _, hrows⟩ :=
    augmentGeneral_cells left right jpc pairs rjcn mcn ac out hok hvalid
  have hrow := hrows i hi
  rw [DFrame.cell_eq_rowLookup out i _ hrow c, hcols]
  unfold buildRow
  exact rowLookup_map _ _ _ hcfin

theorem not_paired_firstRightFor_none (pairs : List (Nat × Nat)) (i : Nat)
    (h : ∀ r2, (i, r2) ∉ pairs) : firstRightFor pairs i = none := by
  refine lookup_eq_none_of_not_mem (dedupPairsByLeft pairs []) (fun hmem => ?_)
  obtain ⟨p, hp, hfst⟩ := List.mem_map.1 hmem
  obtain ⟨hp', _⟩ := mem_dedupPairsByLeft pairs [] hp
  have : (i, p.2) ∈ pairs := by
    have : p = (i, p.2) := Prod.ext_iff.2 ⟨hfst, rfl⟩
    rw [← this]
    exact hp'
  exact h p.2 this

theorem augmentAddedCols_subset_right (left right : DFrame)
    (pairs : List (Nat × Nat)) (rjcn : String) (mcn : List String)
    (ac : List Nat) :
    ∀ c ∈ augmentAddedCols left right pairs rjcn mcn ac, c ∈ right.cols := by
  intro c hc
  unfold augmentAddedCols at hc
  by_cases h : (dedupPairsByLeft pairs []).isEmpty
  · rw [if_pos h] at hc; cases hc
  · rw [if_neg h] at hc
    unfold augmentJoinCols at hc
    have hbase : c ∈ (augmentJoinColsBase left.cols right.cols).filter
        (fun c => c ≠ rjcn) := by
      by_cases hac : ac.isEmpty
      · rw [if_pos hac] at hc; exact hc
      · rw [if_neg hac] at hc; exact List.mem_of_mem_filter hc
    have hbase2 : c ∈ augmentJoinColsBase left.cols right.cols :=
      List.mem_of_mem_filter hbase
    unfold augmentJoinColsBase at hbase2
    have hmem2 := (List.perm_insertionSort strLE _).subset hbase2
    exact List.mem_of_mem_filter (List.mem_dedup.1 hmem2)

/-- C1: the claim states that the cardinality check raises exactly when both
the maximum left-side and right-side fan-outs exceed `left_row_count / 20`.
On the 3-by-3 cross product over a 40-row supplied table both maxima are 3,
which exceeds 40 / 20 = 2, yet the embedded check completes without raising:
the code's left-duplicate counter only appends to `left_pairs[r1]` after
`len(left_pairs[r1]) >= threshold` already holds, so for any positive row
count `left_pairs_oversize` is unreachable and the n-to-m rejection never
fires. -/
theorem cardinalityCheck_accepts_nm_crossproduct :
    maxLeftFanout [(0, 0), (0, 1), (0, 2), (1, 0), (1, 1), (1, 2),
      (2, 0), (2, 1), (2, 2)] = 3 ∧
    maxRightFanout [(0, 0), (0, 1), (0, 2), (1, 0), (1, 1), (1, 2),
      (2, 0), (2, 1), (2, 2)] = 3 ∧
    20 * 3 > 40 ∧
    cardinalityCheck [] [(0, 0), (0, 1), (0, 2), (1, 0), (1, 1), (1, 2),
      (2, 0), (2, 1), (2, 2)] 40 = Except.ok () :=
  ⟨by decide, by decide, by decide, rfl⟩

/-- C2: for every supplied table, right table and row-pair set accepted by
the cardinality check (the pairs referencing valid left row indices), the
merged table has exactly one row per left row in the left table's original
order: its row count equals the left row count, the cell of any kept supplied
column at output row `i` equals left row `i`'s cell, and left rows with no
pair are present with every augmented column empty. -/
theorem augmentGeneral_row_preservation
    (left right : DFrame) (jpc : List (List Nat)) (pairs : List (Nat × Nat))
    (rjcn : String) (mcn : List String) (ac : List Nat) (out : DFrame)
    (hok : augmentGeneral left right jpc pairs rjcn mcn ac = Except.ok out)
    (hvalid : ∀ p ∈ pairs, p.1 < left.rows.length) :
    out.rows.length = left.rows.length ∧
    (∀ i, i < left.rows.length → ∀ c, c ∈ left.cols → keepMergedCol c →
      out.cell i c = left.cell i c) ∧
    (∀ i, i < left.rows.length → (∀ r2, (i, r2) ∉ pairs) →
      ∀ c, c ∈ out.cols → c ∉ left.cols → out.cell i c = none) := by
  obtain ⟨hcols, hlen, _⟩ :=
    augmentGeneral_cells left right jpc pairs rjcn mcn ac out hok hvalid
  refine ⟨hlen, ?_, ?_⟩
  · intro i hi c hc hkeep
    have hcfin : c ∈ augmentFinalCols left right pairs rjcn mcn ac :=
      List.mem_filter.2 ⟨List.mem_append.2 (Or.inl hc), decide_eq_true hkeep⟩
    rw [augmentGeneral_cell left right jpc pairs rjcn mcn ac out hok hvalid
      i hi c hcfin, if_pos hc]
  · intro i hi hnopair c hcout hcl
    have hcfin : c ∈ augmentFinalCols left right pairs rjcn mcn ac :=
      hcols ▸ hcout
    rw [augmentGeneral_cell left right jpc pairs rjcn mcn ac out hok hvalid
      i hi c hcfin, if_neg hcl, not_paired_firstRightFor_none pairs i hnopair]

theorem augmentGeneral_row_preservation_witness :
    ∃ out, augmentGeneral ⟨["k", "x"],
        [[some "a", some "1"], [some "b", some "2"], [some "c", some "3"]]⟩
      ⟨["k", "y"], [[some "a", some "p"], [some "b", some "q"]]⟩
      [[], []] [(1, 1), (0, 0)] "k" [] [] = Except.ok out ∧
    out.rows.length = 3 ∧ out.cell 2 "x" = some "3" ∧ out.cell 2 "y" = none := by
  refine ⟨⟨["k", "x", "y"], [[some "a", some "1", some "p"],
    [some "b", some "2", some "q"], [some "c", some "3", none]]⟩, rfl, ?_, rfl, ?_⟩
  · obtain ⟨h, _, _⟩ := augmentGeneral_row_preservation
      ⟨["k", "x"], [[some "a", some "1"], [some "b", some "2"], [some "c", some "3"]]⟩
      ⟨["k", "y"], [[some "a", some "p"], [some "b", some "q"]]⟩
      [[], []] [(1, 1), (0, 0)] "k" [] [] _ rfl (by decide)
    exact h
  · obtain ⟨_, _, h⟩ := augmentGeneral_row_preservation
      ⟨["k", "x"], [[some "a", some "1"], [some "b", some "2"], [some "c", some "3"]]⟩
      ⟨["k", "y"], [[some "a", some "p"], [some "b", some "q"]]⟩
      [[], []] [(1, 1), (0, 0)] "k" [] [] _ rfl (by decide)
    exact h 2 (by decide) (by simp) "y" (by decide) (by decide)

/-- C3 counterexample: with an `augment_columns` allow-list that excludes all
right-table columns, the merge returns the unaugmented table successfully —
no `ValueError` is raised for the vacuous augmentation, contradicting the
claim. -/
theorem augmentGeneral_vacuous_counterexample :
    augmentGeneral ⟨["a"], [[some "1"]]⟩ ⟨["a", "b"], [[some "1", some "x"]]⟩
      [] [(0, 0)] "zzz" ["a", "b"] [0] =
      Except.ok ⟨["a"], [[some "1"]]⟩ := rfl

/-- C3 (amended): whenever the cardinality check passes, the merge never
raises — in particular when, after excluding the right join column and
applying the caller's column filter, zero right columns would be added, it
logs a diagnostic and returns the table with only the (kept) supplied
columns instead of raising `ValueError`. -/
theorem augmentGeneral_vacuous_no_error
    (left right : DFrame) (jpc : List (List Nat)) (pairs : List (Nat × Nat))
    (rjcn : String) (mcn : List String) (ac : List Nat)
    (hcc : cardinalityCheck jpc pairs left.rows.length = Except.ok ()) :
    ∃ out, augmentGeneral left right jpc pairs rjcn mcn ac = Except.ok out ∧
      (augmentAddedCols left right pairs rjcn mcn ac = [] →
        out.cols = left.cols.filter (fun c => keepMergedCol c)) := by
  refine ⟨⟨augmentFinalCols left right pairs rjcn mcn ac,
    augmentMergedRows left right pairs rjcn mcn ac⟩, ?_, ?_⟩
  · unfold augmentGeneral
    rw [hcc]
  · intro hempty
    show augmentFinalCols left right pairs rjcn mcn ac = _
    unfold augmentFinalCols
    rw [hempty, List.append_nil]

theorem augmentGeneral_vacuous_no_error_witness :
    ∃ out, augmentGeneral ⟨["a"], [[some "1"]]⟩
      ⟨["a", "b"], [[some "1", some "x"]]⟩
      [] [(0, 0)] "zzz" ["a", "b"] [0] = Except.ok out ∧ out.cols = ["a"] := by
  obtain ⟨out, hok, hcols⟩ := augmentGeneral_vacuous_no_error
    ⟨["a"], [[some "1"]]⟩ ⟨["a", "b"], [[some "1", some "x"]]⟩
    [] [(0, 0)] "zzz" ["a", "b"] [0] rfl
  exact ⟨out, hok, (hcols rfl).trans rfl⟩

/-- C4 counterexample: a right column named `id` colliding with a left column
named `id` does not leave the left `id` values unchanged in the output — the
merged dataframe drops the `id` column entirely (entries.py 1794-1795), so
the claim's "the left column's values in the output are identical to its
values in the supplied table" fails for that column. -/
theorem augmentGeneral_id_column_counterexample :
    augmentGeneral ⟨["id", "x"], [[some "7", some "u"]]⟩
      ⟨["id", "y"], [[some "7", some "v"]]⟩ [] [(0, 0)] "zzz" [] [] =
      Except.ok ⟨["x", "y"], [[some "u", some "v"]]⟩ ∧
    "id" ∈ (DFrame.mk ["id", "x"] [[some "7", some "u"]]).cols ∧
    "id" ∈ (DFrame.mk ["id", "y"] [[some "7", some "v"]]).cols ∧
    "id" ∉ (DFrame.mk ["x", "y"] [[some "u", some "v"]]).cols :=
  ⟨rfl, by decide, by decide, by decide⟩

/-- C4 (amended): for every right column whose name equals a left column name
and is not one of the dropped names (`q_node`, `id`, `**original_index**`),
the right column's values never appear — every output column either carries a
left column's values unchanged or is a non-colliding right column — and the
left column's values are unchanged in the output; colliding columns with the
dropped names are removed from the output altogether. -/
theorem augmentGeneral_left_wins
    (left right : DFrame) (jpc : List (List Nat)) (pairs : List (Nat × Nat))
    (rjcn : String) (mcn : List String) (ac : List Nat) (out : DFrame)
    (hok : augmentGeneral left right jpc pairs rjcn mcn ac = Except.ok out)
    (hvalid : ∀ p ∈ pairs, p.1 < left.rows.length) :
    (∀ c, ¬ keepMergedCol c → c ∉ out.cols) ∧
    (∀ c, c ∈ left.cols → keepMergedCol c → c ∈ out.cols ∧
      ∀ i, i < left.rows.length → out.cell i c = left.cell i c) ∧
    (∀ c, c ∈ out.cols → c ∉ left.cols → c ∈ right.cols) := by
  obtain ⟨hcols, _, _⟩ :=
    augmentGeneral_cells left right jpc pairs rjcn mcn ac out hok hvalid
  refine ⟨?_, ?_, ?_⟩
  · intro c hdrop hmem
    have := (List.mem_filter.1 (hcols ▸ hmem)).2
    exact hdrop (of_decide_eq_true this)
  · intro c hc hkeep
    have hcfin : c ∈ augmentFinalCols left right pairs rjcn mcn ac :=
      List.mem_filter.2 ⟨List.mem_append.2 (Or.inl hc), decide_eq_true hkeep⟩
    refine ⟨hcols ▸ hcfin, fun i hi => ?_⟩
    rw [augmentGeneral_cell left right jpc pairs rjcn mcn ac out hok hvalid
      i hi c hcfin, if_pos hc]
  · intro c hcout hcl
    have hcfin : c ∈ augmentFinalCols left right pairs rjcn mcn ac :=
      hcols ▸ hcout
    have hcapp := (List.mem_filter.1 hcfin).1
    rcases List.mem_append.1 hcapp with h | h
    · exact absurd h hcl
    · exact augmentAddedCols_subset_right left right pairs rjcn mcn ac c h

theorem augmentGeneral_left_wins_witness :
    ∃ out, augmentGeneral ⟨["k", "x"],
        [[some "a", some "1"], [some "b", some "2"], [some "c", some "3"]]⟩
      ⟨["k", "y"], [[some "a", some "p"], [some "b", some "q"]]⟩
      [[], []] [(1, 1), (0, 0)] "k" [] [] = Except.ok out ∧
    "x" ∈ out.cols ∧ out.cell 0 "x" = some "1" := by
  refine ⟨⟨["k", "x", "y"], [[some "a", some "1", some "p"],
    [some "b", some "2", some "q"], [some "c", some "3", none]]⟩, rfl, ?_⟩
  obtain ⟨_, h, _⟩ := augmentGeneral_left_wins
    ⟨["k", "x"], [[some "a", some "1"], [some "b", some "2"], [some "c", some "3"]]⟩
    ⟨["k", "y"], [[some "a", some "p"], [some "b", some "q"]]⟩
    [[], []] [(1, 1), (0, 0)] "k" [] [] _ rfl (by decide)
  obtain ⟨hmem, hcell⟩ := h "x" (by decide) (by decide)
  exact ⟨hmem, (hcell 0 (by decide)).trans rfl⟩

/-- C6: when the pair list is in ascending `(left_row_index,
right_row_index)` order and a left row index has several pairs, the merged
row for that left index is built from its first pair — the one with the
smallest right row index. -/
theorem augmentGeneral_first_pair
    (left right : DFrame) (jpc : List (List Nat)) (pairs : List (Nat × Nat))
    (rjcn : String) (mcn : List String) (ac : List Nat) (out : DFrame)
    (hok : augmentGeneral left right jpc pairs rjcn mcn ac = Except.ok out)
    (hvalid : ∀ p ∈ pairs, p.1 < left.rows.length)
    (hsorted : List.Pairwise pairLexLE pairs)
    (l r : Nat) (hmem : (l, r) ∈ pairs)
    (hmin : ∀ r', (l, r') ∈ pairs → r ≤ r') :
    ∀ c, c ∈ out.cols → c ∉ left.cols → out.cell l c = right.cell r c := by
  obtain ⟨hcols, _, _⟩ :=
    augmentGeneral_cells left right jpc pairs rjcn mcn ac out hok hvalid
  have hl : l < left.rows.length := hvalid (l, r) hmem
  obtain ⟨rf, hrf⟩ :=
    exists_dedupPairsByLeft_of_mem pairs [] hmem (List.not_mem_nil l)
  have hrfmem : (l, rf) ∈ pairs := (mem_dedupPairsByLeft pairs [] hrf).1
  have hminf := dedupPairsByLeft_min_right pairs [] hsorted hrf
  have hrf_eq : rf = r := Nat.le_antisymm (hminf r hmem) (hmin rf hrfmem)
  have hlook : firstRightFor pairs l = some r :=
    lookup_eq_some_of_nodup_mem (dedupPairsByLeft pairs [])
      (nodup_fst_dedupPairsByLeft pairs []) (hrf_eq ▸ hrf)
  intro c hcout hcl
  have hcfin : c ∈ augmentFinalCols left right pairs rjcn mcn ac :=
    hcols ▸ hcout
  rw [augmentGeneral_cell left right jpc pairs rjcn mcn ac out hok hvalid
    l hl c hcfin, if_neg hcl, hlook]

theorem augmentGeneral_first_pair_witness :
    ∃ out, augmentGeneral ⟨["k"], [[some "a"]]⟩
      ⟨["k", "y"], [[some "a", some "p"], [some "a", some "q"]]⟩
      [] [(0, 0), (0, 1)] "k" [] [] = Except.ok out ∧
    out.cell 0 "y" = some "p" := by
  refine ⟨⟨["k", "y"], [[some "a", some "p"]]⟩, rfl, ?_⟩
  have h := augmentGeneral_first_pair ⟨["k"], [[some "a"]]⟩
    ⟨["k", "y"], [[some "a", some "p"], [some "a", some "q"]]⟩
    [] [(0, 0), (0, 1)] "k" [] [] _ rfl (by decide) (by decide)
    0 0 (by decide) (fun r' _ => Nat.zero_le r') "y" (by decide) (by decide)
  exact h.trans rfl

/-- C7 counterexample: reconstructing a join spec from serialized
column-number pairs with mismatched group-list lengths raises a `ValueError`
instead of truncating, contradicting the claim that construction "is never an
error" and "applies equally when the spec is reconstructed from serialized
column-number pairs". -/
theorem fromColumnNumberPairs_mismatch_counterexample :
    TabularJoinSpec.from_column_number_pairs [[0]] [] =
      Except.error
        "The given join pairs length on left and right are different." := rfl

/-- C7 (amended): the join-spec constructor truncates mismatched group lists
to the shorter length, so `len(left_columns) == len(right_columns)` always
holds after construction; reconstruction from serialized column-number pairs,
however, raises a `ValueError` on mismatched lengths and only constructs
(with the invariant holding) when the lengths already agree. -/
theorem tabularJoinSpec_length_invariant
    (l r : List (List DatasetColumn)) (lrid rrid : Option String)
    (lp rp : List (List Nat)) :
    ((TabularJoinSpec.build l r lrid rrid).left_columns.length =
      (TabularJoinSpec.build l r lrid rrid).right_columns.length) ∧
    (lp.length ≠ rp.length →
      TabularJoinSpec.from_column_number_pairs lp rp =
        Except.error
          "The given join pairs length on left and right are different.") ∧
    (lp.length = rp.length →
      ∃ s, TabularJoinSpec.from_column_number_pairs lp rp = Except.ok s ∧
        s.left_columns.length = s.right_columns.length) := by
  refine ⟨?_, ?_, ?_⟩
  · unfold TabularJoinSpec.build
    by_cases h : l.length ≠ r.length
    · rw [if_pos h]
      simp only [List.length_take]
      omega
    · rw [if_neg h]
      simpa using not_not.1 h
  · intro hne
    unfold TabularJoinSpec.from_column_number_pairs
    rw [if_pos (by simpa using hne)]
  · intro heq
    unfold TabularJoinSpec.from_column_number_pairs
    rw [if_neg (by simpa using heq)]
    refine ⟨_, rfl, ?_⟩
    unfold TabularJoinSpec.build
    rw [if_neg (by simpa using heq)]
    simpa using heq

theorem tabularJoinSpec_length_invariant_witness :
    ((TabularJoinSpec.build [[⟨none, 0⟩], [⟨none, 1⟩]] [[⟨none, 2⟩]]
        none none).left_columns.length =
      (TabularJoinSpec.build [[⟨none, 0⟩], [⟨none, 1⟩]] [[⟨none, 2⟩]]
        none none).right_columns.length) ∧
    TabularJoinSpec.from_column_number_pairs [[0]] [[1], [2]] =
      Except.error
        "The given join pairs length on left and right are different." ∧
    ∃ s, TabularJoinSpec.from_column_number_pairs [[0]] [[1]] =
      Except.ok s ∧ s.left_columns.length = s.right_columns.length := by
  obtain ⟨h1, _, _⟩ := tabularJoinSpec_length_invariant
    [[⟨none, 0⟩], [⟨none, 1⟩]] [[⟨none, 2⟩]] none none [[0]] [[1]]
  obtain ⟨_, h2, _⟩ := tabularJoinSpec_length_invariant
    ([] : List (List DatasetColumn)) [] none none [[0]] [[1], [2]]
  obtain ⟨_, _, h3⟩ := tabularJoinSpec_length_invariant
    ([] : List (List DatasetColumn)) [] none none [[0]] [[1]]
  exact ⟨h1, h2 (by decide), h3 rfl⟩

/-- C8: the claim states the dummy fallback is returned exactly when the
expected key column name is absent from the supplied columns.  The embedded
dispatch shows the code also takes the dummy path when the key column is
present *at position 0* (because Python's `if not q_node_column_number`
treats index `0` like `None`), while a key column at a positive index takes
the normal join path and an absent key column takes the dummy path; the
dummy result is the supplied table extended with one empty placeholder
column per needed property plus a `joining_pairs` column. -/
theorem wikidataDownload_zero_index_dummy :
    qNodeColumnNumber ["city_wikidata", "population"] "city_wikidata" =
      some 0 ∧
    downloadWikidataDispatch ["city_wikidata", "population"] "city_wikidata" =
      WikidataPath.dummy ∧
    downloadWikidataDispatch ["population", "city_wikidata"] "city_wikidata" =
      WikidataPath.normal 1 ∧
    qNodeColumnNumber ["population"] "city_wikidata" = none ∧
    downloadWikidataDispatch ["population"] "city_wikidata" =
      WikidataPath.dummy ∧
    dummyDownloadWikidata ⟨["city_wikidata"], [[some "Q60"]]⟩ (fun p => p)
        ["P123"] "city_wikidata" =
      ⟨["city_wikidata", "city_wikidata_P123", "joining_pairs"],
        [[some "Q60", some "", some ""]]⟩ :=
  ⟨rfl, rfl, rfl, rfl, rfl, rfl⟩

theorem timeScore_eq (qs qe ds de : Rat) (hq : qs < qe) (hd : ds ≤ de) :
    timeScore qs qe ds de =
      if de < qs ∨ qe < ds then 0 else (min qe de - max qs ds) / (qe - qs) := by
  by_cases hdisj : de < qs ∨ qe < ds
  · rw [if_pos hdisj]
    unfold timeScore
    rcases hdisj with h | h
    · rw [if_pos (by linarith : qe > de), if_pos (by linarith : qs > de)]
    · rw [if_neg (by linarith : ¬ qe > de),
        if_neg (fun hc => absurd hc.1 (not_le.2 h)), if_pos (by linarith : ds > qe)]
  · rw [if_neg hdisj]
    push_neg at hdisj
    obtain ⟨hqsde, hdsqe⟩ := hdisj
    unfold timeScore
    by_cases hA : qe > de
    · rw [if_pos hA, if_neg (not_lt.2 hqsde)]
      by_cases hA2 : qs ≥ ds ∧ de ≥ qs
      · rw [if_pos hA2, min_eq_right (le_of_lt hA), max_eq_left hA2.1]
      · have hds : ds > qs := by
          rcases not_and_or.1 hA2 with h | h
          · exact not_le.1 h
          · exact absurd hqsde h
        rw [if_neg hA2, if_pos hds, min_eq_right (le_of_lt hA),
          max_eq_right (le_of_lt hds)]
    · have hle : qe ≤ de := not_lt.1 hA
      rw [if_neg hA, if_pos (⟨hdsqe, hle⟩ : qe ≥ ds ∧ de ≥ qe)]
      by_cases hB1 : qs ≥ ds
      · rw [if_pos hB1, min_eq_left hle, max_eq_left hB1,
          div_self (sub_ne_zero.2 (ne_of_gt hq))]
      · rw [if_neg hB1, if_pos (not_le.1 hB1), min_eq_left hle,
          max_eq_right (le_of_lt (not_le.1 hB1))]

/-- C5 (amended): for a query range `[qs, qe]` (with `qs < qe`) and dataset
range `[ds, de]`, the temporal match score is 0.0 when the ranges are
disjoint, 1.0 when the dataset range fully contains the query range, and
otherwise the fraction of the query range's duration covered by the dataset
range, always lying in [0, 1].  Scenario C — a dataset range strictly inside
the query range — falls in the fraction case (29/365 for the given dates),
not the 1.0 case; the 1.0 case needs the containment the other way around. -/
theorem timeScore_spec (qs qe ds de : Rat) (hq : qs < qe) (hd : ds ≤ de) :
    (de < qs ∨ qe < ds → timeScore qs qe ds de = 0) ∧
    (ds ≤ qs → qe ≤ de → timeScore qs qe ds de = 1) ∧
    (¬ (de < qs ∨ qe < ds) →
      timeScore qs qe ds de = (min qe de - max qs ds) / (qe - qs)) ∧
    0 ≤ timeScore qs qe ds de ∧ timeScore qs qe ds de ≤ 1 := by
  have heq := timeScore_eq qs qe ds de hq hd
  refine ⟨?_, ?_, ?_, ?_, ?_⟩
  · intro h
    rw [heq, if_pos h]
  · intro h1 h2
    rw [heq, if_neg (by push_neg; exact ⟨by linarith, by linarith⟩),
      min_eq_left h2, max_eq_left h1, div_self (sub_ne_zero.2 (ne_of_gt hq))]
  · intro h
    rw [heq, if_neg h]
  · rw [heq]
    by_cases h : de < qs ∨ qe < ds
    · rw [if_pos h]
    · rw [if_neg h]
      push_neg at h
      apply div_nonneg
      · have h1 : max qs ds ≤ min qe de :=
          max_le (le_min hq.le h.1) (le_min h.2 hd)
        linarith
      · linarith
  · rw [heq]
    by_cases h : de < qs ∨ qe < ds
    · rw [if_pos h]
      norm_num
    · rw [if_neg h]
      rw [div_le_one (by linarith : (0 : Rat) < qe - qs)]
      have h1 : min qe de ≤ qe := min_le_left _ _
      have h2 : qs ≤ max qs ds := le_max_left _ _
      linarith

theorem timeScore_spec_witness :
    timeScore 0 10 2 4 = (min (10 : Rat) 4 - max 0 2) / (10 - 0) ∧
    0 ≤ timeScore 0 10 2 4 ∧ timeScore 0 10 2 4 ≤ 1 := by
  obtain ⟨_, _, h3, h4, h5⟩ :=
    timeScore_spec 0 10 2 4 (by norm_num) (by norm_num)
  exact ⟨h3 (by norm_num), h4, h5⟩

/-- C5 counterexample: Scenario C — query range 2020-01-01 to 2020-12-31 and
dataset range 2020-06-01 to 2020-06-30, as POSIX timestamps — yields the
score 29/365 (about 0.079), not 1.0 as the claim states. -/
theorem timeScore_scenarioC_counterexample :
    timeScore 1577836800 1609372800 1590969600 1593475200 = 29 / 365 ∧
    (29 / 365 : Rat) ≠ 1 := by
  constructor
  · unfold timeScore
    norm_num
  · norm_num

/-- C9: the temporal range-overlap test is symmetric in its two closed
intervals, and holds exactly when `a_start <= b_end` and `b_start <= a_end`;
the SPARQL coverage filter emitted for the triple store agrees with the
overlap test on the query/dataset ranges. -/
theorem overlap_symmetric :
    (∀ a b : Rat × Rat, overlap a b = overlap b a) ∧
    (∀ a b : Rat × Rat, overlap a b = true ↔ a.1 ≤ b.2 ∧ b.1 ≤ a.2) ∧
    (∀ qs qe ds de : Rat,
      temporalFilterKeeps ds de qs qe = overlap (qs, qe) (ds, de)) := by
  refine ⟨?_, ?_, ?_⟩
  · intro a b
    unfold overlap
    exact Bool.and_comm _ _
  · intro a b
    unfold overlap
    simp
  · intro qs qe ds de
    unfold temporalFilterKeeps overlap
    simp only [Bool.not_or, ← decide_not, not_lt]
    exact Bool.and_comm _ _

/-- C10: `get_next_page` with a non-`None` integer limit returns (when not
`None`) at most `limit` results; every result available to the cursor —
retained from earlier searches or found by the pending queries — is either
returned now or still available in the updated cursor state rather than
dropped; and once the queries are exhausted, a call whose limit accommodates
the retained part returns exactly those retained results (sorted). -/
theorem getNextPage_limit_retention (limit : Nat) (st : CursorState) :
    (∀ l, (getNextPage limit st).1 = some l → l.length ≤ limit) ∧
    (∀ l, (getNextPage limit st).1 = some l →
      ∀ x, x ∈ availableResults st →
        x ∈ l ∨ x ∈ availableResults (getNextPage limit st).2) ∧
    (st.queries = [] → st.remained ≠ [] → st.remained.length ≤ limit →
      ∃ l, (getNextPage limit st).1 = some l ∧ l.Perm st.remained) := by
  by_cases h1 : st.remained.length > limit
  · have heq : getNextPage limit st = (some (st.remained.take limit),
        ⟨st.remained.drop limit, st.queries⟩) := by
      unfold getNextPage
      rw [if_pos h1]
    refine ⟨?_, ?_, ?_⟩
    · intro l hl
      rw [heq] at hl
      obtain rfl : st.remained.take limit = l := Option.some.inj hl
      rw [List.length_take]
      exact min_le_left _ _
    · intro l hl x hx
      rw [heq] at hl ⊢
      obtain rfl : st.remained.take limit = l := Option.some.inj hl
      unfold availableResults at hx ⊢
      rcases List.mem_append.1 hx with hx | hx
      · conv at hx => rw [← List.take_append_drop limit st.remained]
        rcases List.mem_append.1 hx with hx | hx
        · exact Or.inl hx
        · exact Or.inr (List.mem_append.2 (Or.inl hx))
      · exact Or.inr (List.mem_append.2 (Or.inr hx))
    · intro _ _ hlen
      exact absurd h1 (not_lt.2 hlen)
  · by_cases h2 : (st.remained ++ (st.queries.filterMap id).flatten).length = 0
    · have heq : getNextPage limit st = (none, ⟨st.remained, []⟩) := by
        unfold getNextPage
        rw [if_neg h1, if_pos h2]
      refine ⟨?_, ?_, ?_⟩
      · intro l hl
        rw [heq] at hl
        cases hl
      · intro l hl
        rw [heq] at hl
        cases hl
      · intro _ hne _
        exfalso
        apply hne
        rw [List.length_append] at h2
        exact List.length_eq_zero.1 (by omega)
    · by_cases h3 : (List.insertionSort scoreDesc
          (st.remained ++ (st.queries.filterMap id).flatten)).length > limit
      · have heq : getNextPage limit st = (some ((List.insertionSort scoreDesc
            (st.remained ++ (st.queries.filterMap id).flatten)).take limit),
            ⟨(List.insertionSort scoreDesc
              (st.remained ++ (st.queries.filterMap id).flatten)).drop limit,
              []⟩) := by
          unfold getNextPage
          rw [if_neg h1, if_neg h2, if_pos h3]
        refine ⟨?_, ?_, ?_⟩
        · intro l hl
          rw [heq] at hl
          obtain rfl := Option.some.inj hl
          rw [List.length_take]
          exact min_le_left _ _
        · intro l hl x hx
          rw [heq] at hl ⊢
          obtain rfl := Option.some.inj hl
          have hxs : x ∈ List.insertionSort scoreDesc
              (st.remained ++ (st.queries.filterMap id).flatten) :=
            (List.perm_insertionSort scoreDesc _).mem_iff.2 hx
          conv at hxs => rw [← List.take_append_drop limit
            (List.insertionSort scoreDesc
              (st.remained ++ (st.queries.filterMap id).flatten))]
          rcases List.mem_append.1 hxs with hxs | hxs
          · exact Or.inl hxs
          · refine Or.inr ?_
            unfold availableResults
            exact List.mem_append.2 (Or.inl hxs)
        · intro hq _ hlen
          exfalso
          rw [hq] at h3
          simp only [List.filterMap_nil, List.flatten_nil, List.append_nil,
            List.length_insertionSort] at h3
          omega
      · have heq : getNextPage limit st = (some (List.insertionSort scoreDesc
            (st.remained ++ (st.queries.filterMap id).flatten)),
            ⟨st.remained, []⟩) := by
          unfold getNextPage
          rw [if_neg h1, if_neg h2, if_neg h3]
        refine ⟨?_, ?_, ?_⟩
        · intro l hl
          rw [heq] at hl
          obtain rfl := Option.some.inj hl
          exact not_lt.1 h3
        · intro l hl x hx
          rw [heq] at hl
          obtain rfl := Option.some.inj hl
          exact Or.inl ((List.perm_insertionSort scoreDesc _).mem_iff.2 hx)
        · intro hq hne hlen
          refine ⟨List.insertionSort scoreDesc
            (st.remained ++ (st.queries.filterMap id).flatten), ?_, ?_⟩
          · rw [heq]
          · have hperm := List.perm_insertionSort scoreDesc
              (st.remained ++ (st.queries.filterMap id).flatten)
            rw [hq] at hperm ⊢
            simpa using hperm

theorem getNextPage_limit_retention_witness :
    (getNextPage 2 ⟨[5, 3], []⟩).1 = some [5, 3] ∧
    ([5, 3] : List Rat).length ≤ 2 ∧
    ((5 : Rat) ∈ ([5, 3] : List Rat) ∨
      (5 : Rat) ∈ availableResults (getNextPage 2 ⟨[5, 3], []⟩).2) ∧
    ∃ l, (getNextPage 2 (⟨[5, 3], []⟩ : CursorState)).1 = some l ∧
      l.Perm [5, 3] := by
  obtain ⟨hlim, hret, hrem⟩ := getNextPage_limit_retention 2 ⟨[5, 3], []⟩
  refine ⟨rfl, hlim [5, 3] rfl, ?_, ?_⟩
  · refine hret [5, 3] rfl 5 ?_
    unfold availableResults
    simp
  · exact hrem rfl (by simp) (by simp)

end Datamart
